import Mathlib

/-!
Shallow embedding of the channel layer of the `lightyear` repository
(`shared/src/channel/channel.rs`), together with spec-modelled definitions for
the sender and receiver components that the container instantiates (their
source files are referenced by `channel.rs` but are not part of the sources
available here; they are modelled from the specification's description).

Payloads are opaque application bytes; the embedding is polymorphic in the
payload type `α`.  `u16` counters are modelled as `Nat` reduced modulo
`2 ^ 16` where the source wraps; `f32` tuning constants that are exactly
representable (such as `1.5`) are modelled as `ℚ`; timestamps and durations
are modelled as `ℚ` milliseconds.
-/

namespace Lightyear

/-- The `u16` modulus used for wrapping message ids and sequence numbers. -/
def u16Mod : Nat := 2 ^ 16

/-- From `channel.rs`: `ReliableSettings { rtt_resend_factor: f32 }`.
The field multiplies the RTT estimate to derive the resend timeout. -/
structure ReliableSettings where
  rtt_resend_factor : ℚ
  deriving DecidableEq, Repr

/-- From `channel.rs`: `ReliableSettings::default` (the inherent `const fn`)
returns `rtt_resend_factor = 1.5`. -/
def ReliableSettings.default : ReliableSettings :=
  { rtt_resend_factor := 3 / 2 }

/-- From `channel.rs`: the `ChannelMode` enum with its five variants. -/
inductive ChannelMode where
  | UnorderedUnreliable : ChannelMode
  | SequencedUnreliable : ChannelMode
  | UnorderedReliable : ReliableSettings → ChannelMode
  | SequencedReliable : ReliableSettings → ChannelMode
  | OrderedReliable : ReliableSettings → ChannelMode
  deriving DecidableEq, Repr

/-- From `channel.rs`: `#[default]` marks `UnorderedUnreliable`, so the derived
`Default` impl of `ChannelMode` yields it. -/
def ChannelMode.default : ChannelMode := ChannelMode.UnorderedUnreliable

/-- From `channel.rs`: the `ChannelDirection` enum. -/
inductive ChannelDirection where
  | ClientToServer : ChannelDirection
  | ServerToClient : ChannelDirection
  | Bidirectional : ChannelDirection
  deriving DecidableEq, Repr

/-- From `channel.rs`: `#[default]` marks `Bidirectional`, so the derived
`Default` impl of `ChannelDirection` yields it. -/
def ChannelDirection.default : ChannelDirection := ChannelDirection.Bidirectional

/-- From `channel.rs`: `ChannelSettings { mode, direction }`. -/
structure ChannelSettings where
  mode : ChannelMode
  direction : ChannelDirection
  deriving DecidableEq, Repr

/-- From `channel.rs`: the derived `Default` impl of `ChannelSettings` fills
each field with its own derived default. -/
def ChannelSettings.default : ChannelSettings :=
  { mode := ChannelMode.default, direction := ChannelDirection.default }

/-- From `channel.rs`: `ChannelKind(u16)`, an opaque numeric channel id. -/
structure ChannelKind where
  id : Nat
  deriving DecidableEq, Repr

/-- Modelled from the spec: the unordered-unreliable sender is fire-and-forget;
its only state is the payloads enqueued during the current tick. -/
structure UnorderedUnreliableSender (α : Type) where
  pending : List α
  deriving DecidableEq, Repr

/-- Modelled from the spec: `UnorderedUnreliableSender::new` starts empty. -/
def UnorderedUnreliableSender.new {α : Type} : UnorderedUnreliableSender α :=
  { pending := [] }

/-- Modelled from the spec: the sequenced-unreliable sender additionally stamps
each outgoing packet with a strictly increasing (wrapping) sequence number. -/
structure SequencedUnreliableSender (α : Type) where
  next_sequence : Nat
  pending : List (Nat × α)
  deriving DecidableEq, Repr

/-- Modelled from the spec: `SequencedUnreliableSender::new` starts at
sequence `0` with nothing pending. -/
def SequencedUnreliableSender.new {α : Type} : SequencedUnreliableSender α :=
  { next_sequence := 0, pending := [] }

/-- Modelled from the spec: a reliable sender's in-flight record
`{ message_id, payload, last_sent_at, send_count }`; `last_sent_at` is `none`
until the record is first emitted. -/
structure InFlightRecord (α : Type) where
  message_id : Nat
  payload : α
  last_sent_at : Option ℚ
  send_count : Nat
  deriving DecidableEq, Repr

/-- Modelled from the spec: the reliable sender assigns monotonically
increasing (wrapping) message ids and keeps an in-flight record per
unacknowledged message. -/
structure ReliableSender (α : Type) where
  settings : ReliableSettings
  next_id : Nat
  in_flight : List (InFlightRecord α)
  deriving DecidableEq, Repr

/-- Modelled from the spec: `ReliableSender::new(settings)` starts with id `0`
and no in-flight records. -/
def ReliableSender.new {α : Type} (settings : ReliableSettings) : ReliableSender α :=
  { settings := settings, next_id := 0, in_flight := [] }

/-- Modelled from the spec: the unordered-unreliable receiver has no
bookkeeping state; every received packet is immediately ready. -/
structure UnorderedUnreliableReceiver (α : Type) where
  ready : List α
  deriving DecidableEq, Repr

/-- Modelled from the spec: `UnorderedUnreliableReceiver::new` starts empty. -/
def UnorderedUnreliableReceiver.new {α : Type} : UnorderedUnreliableReceiver α :=
  { ready := [] }

/-- Modelled from the spec: the sequenced-unreliable receiver keeps
`last_accepted_sequence` (initially none) plus the accepted payloads awaiting
delivery to the application. -/
structure SequencedUnreliableReceiver (α : Type) where
  last_accepted_sequence : Option Nat
  ready : List α
  deriving DecidableEq, Repr

/-- Modelled from the spec: `SequencedUnreliableReceiver::new` starts with no
accepted sequence number. -/
def SequencedUnreliableReceiver.new {α : Type} : SequencedUnreliableReceiver α :=
  { last_accepted_sequence := none, ready := [] }

/-- Modelled from the spec: the unordered-reliable receiver keeps a set of
already-seen message ids and delivers new ids in arrival order. -/
structure UnorderedReliableReceiver (α : Type) where
  seen : List Nat
  ready : List α
  deriving DecidableEq, Repr

/-- Modelled from the spec: `UnorderedReliableReceiver::new` starts empty. -/
def UnorderedReliableReceiver.new {α : Type} : UnorderedReliableReceiver α :=
  { seen := [], ready := [] }

/-- Modelled from the spec: the sequenced-reliable receiver keeps the highest
sequence number seen so far and only ever delivers newer messages. -/
structure SequencedReliableReceiver (α : Type) where
  last_accepted_sequence : Option Nat
  ready : List α
  deriving DecidableEq, Repr

/-- Modelled from the spec: `SequencedReliableReceiver::new` starts with no
accepted sequence number. -/
def SequencedReliableReceiver.new {α : Type} : SequencedReliableReceiver α :=
  { last_accepted_sequence := none, ready := [] }

/-- Modelled from the spec: the ordered-reliable receiver keeps
`next_expected_id` and a reorder buffer keyed by message id. -/
structure OrderedReliableReceiver (α : Type) where
  next_expected_id : Nat
  buffer : List (Nat × α)
  deriving DecidableEq, Repr

/-- Modelled from the spec: `OrderedReliableReceiver::new` starts expecting the
first message id with an empty reorder buffer. -/
def OrderedReliableReceiver.new {α : Type} : OrderedReliableReceiver α :=
  { next_expected_id := 0, buffer := [] }

/-- Modelled from the spec: the closed tagged union of the three sender
variants (`ChannelSender` in the source, an enum-dispatch over the concrete
sender types). -/
inductive ChannelSender (α : Type) where
  | UnorderedUnreliableSender : UnorderedUnreliableSender α → ChannelSender α
  | SequencedUnreliableSender : SequencedUnreliableSender α → ChannelSender α
  | ReliableSender : ReliableSender α → ChannelSender α
  deriving DecidableEq, Repr

/-- Modelled from the spec: the closed tagged union of the five receiver
variants (`ChannelReceiver` in the source). -/
inductive ChannelReceiver (α : Type) where
  | UnorderedUnreliable : UnorderedUnreliableReceiver α → ChannelReceiver α
  | SequencedUnreliable : SequencedUnreliableReceiver α → ChannelReceiver α
  | UnorderedReliable : UnorderedReliableReceiver α → ChannelReceiver α
  | SequencedReliable : SequencedReliableReceiver α → ChannelReceiver α
  | OrderedReliable : OrderedReliableReceiver α → ChannelReceiver α
  deriving DecidableEq, Repr

/-- From `channel.rs`: `ChannelContainer { setting, receiver, sender }`. -/
structure ChannelContainer (α : Type) where
  setting : ChannelSettings
  receiver : ChannelReceiver α
  sender : ChannelSender α
  deriving DecidableEq, Repr

/-- From `channel.rs`: `ChannelContainer::new(settings)` dispatches on
`settings.mode` to pick the sender/receiver pair, and stores a clone of the
settings unchanged. -/
def ChannelContainer.new {α : Type} (settings : ChannelSettings) : ChannelContainer α :=
  match settings.mode with
  | ChannelMode.UnorderedUnreliable =>
      { setting := settings,
        receiver := ChannelReceiver.UnorderedUnreliable UnorderedUnreliableReceiver.new,
        sender := ChannelSender.UnorderedUnreliableSender UnorderedUnreliableSender.new }
  | ChannelMode.SequencedUnreliable =>
      { setting := settings,
        receiver := ChannelReceiver.SequencedUnreliable SequencedUnreliableReceiver.new,
        sender := ChannelSender.SequencedUnreliableSender SequencedUnreliableSender.new }
  | ChannelMode.UnorderedReliable reliable_settings =>
      { setting := settings,
        receiver := ChannelReceiver.UnorderedReliable UnorderedReliableReceiver.new,
        sender := ChannelSender.ReliableSender (ReliableSender.new reliable_settings) }
  | ChannelMode.SequencedReliable reliable_settings =>
      { setting := settings,
        receiver := ChannelReceiver.SequencedReliable SequencedReliableReceiver.new,
        sender := ChannelSender.ReliableSender (ReliableSender.new reliable_settings) }
  | ChannelMode.OrderedReliable reliable_settings =>
      { setting := settings,
        receiver := ChannelReceiver.OrderedReliable OrderedReliableReceiver.new,
        sender := ChannelSender.ReliableSender (ReliableSender.new reliable_settings) }

/-- The variant tag of a `ChannelSender`, used for structural claims. -/
inductive SenderVariant where
  | unorderedUnreliable : SenderVariant
  | sequencedUnreliable : SenderVariant
  | reliable : SenderVariant
  deriving DecidableEq, Repr

/-- The variant tag of a `ChannelReceiver`, used for structural claims. -/
inductive ReceiverVariant where
  | unorderedUnreliable : ReceiverVariant
  | sequencedUnreliable : ReceiverVariant
  | unorderedReliable : ReceiverVariant
  | sequencedReliable : ReceiverVariant
  | orderedReliable : ReceiverVariant
  deriving DecidableEq, Repr

/-- Project a `ChannelSender` to its variant tag. -/
def ChannelSender.variant {α : Type} : ChannelSender α → SenderVariant
  | ChannelSender.UnorderedUnreliableSender _ => SenderVariant.unorderedUnreliable
  | ChannelSender.SequencedUnreliableSender _ => SenderVariant.sequencedUnreliable
  | ChannelSender.ReliableSender _ => SenderVariant.reliable

/-- Project a `ChannelReceiver` to its variant tag. -/
def ChannelReceiver.variant {α : Type} : ChannelReceiver α → ReceiverVariant
  | ChannelReceiver.UnorderedUnreliable _ => ReceiverVariant.unorderedUnreliable
  | ChannelReceiver.SequencedUnreliable _ => ReceiverVariant.sequencedUnreliable
  | ChannelReceiver.UnorderedReliable _ => ReceiverVariant.unorderedReliable
  | ChannelReceiver.SequencedReliable _ => ReceiverVariant.sequencedReliable
  | ChannelReceiver.OrderedReliable _ => ReceiverVariant.orderedReliable

/-- Whether a sender variant is the reliable (resend and ack) one. -/
def SenderVariant.isReliable : SenderVariant → Bool
  | SenderVariant.reliable => true
  | _ => false

/-- Whether a receiver variant is one of the three reliable ones. -/
def ReceiverVariant.isReliable : ReceiverVariant → Bool
  | ReceiverVariant.unorderedReliable => true
  | ReceiverVariant.sequencedReliable => true
  | ReceiverVariant.orderedReliable => true
  | _ => false

/-- The sender/receiver pairing dictated by each `ChannelMode`, as the spec
states it; compared against what `ChannelContainer.new` actually builds. -/
def dictatedPairing : ChannelMode → SenderVariant × ReceiverVariant
  | ChannelMode.UnorderedUnreliable =>
      (SenderVariant.unorderedUnreliable, ReceiverVariant.unorderedUnreliable)
  | ChannelMode.SequencedUnreliable =>
      (SenderVariant.sequencedUnreliable, ReceiverVariant.sequencedUnreliable)
  | ChannelMode.UnorderedReliable _ =>
      (SenderVariant.reliable, ReceiverVariant.unorderedReliable)
  | ChannelMode.SequencedReliable _ =>
      (SenderVariant.reliable, ReceiverVariant.sequencedReliable)
  | ChannelMode.OrderedReliable _ =>
      (SenderVariant.reliable, ReceiverVariant.orderedReliable)

/-- Modelled from the spec: wraparound-aware "strictly greater" on `u16`
sequence numbers, using the half-range window the spec's design notes
recommend: `a` is newer than `b` when the wrapping difference `a - b` lies in
`(0, 2 ^ 15)`. -/
def seqGreaterThan (incoming last : Nat) : Bool :=
  let d := (incoming % u16Mod + u16Mod - last % u16Mod) % u16Mod
  decide (0 < d) && decide (d < u16Mod / 2)

/-- Modelled from the spec: a sequenced receiver accepts a packet only when its
sequence number is strictly greater (wraparound-aware) than
`last_accepted_sequence`; with no accepted sequence yet, every packet is
accepted. -/
def acceptSeq (last : Option Nat) (seq : Nat) : Bool :=
  match last with
  | none => true
  | some l => seqGreaterThan seq l

/-- Modelled from the spec: `SequencedUnreliableReceiver::receive` accepts the
packet (making its payload ready and updating `last_accepted_sequence`) only
when its sequence number passes `acceptSeq`; otherwise it is silently
discarded. -/
def SequencedUnreliableReceiver.receive {α : Type} (st : SequencedUnreliableReceiver α)
    (pkt : Nat × α) : SequencedUnreliableReceiver α :=
  if acceptSeq st.last_accepted_sequence pkt.1 then
    { last_accepted_sequence := some (pkt.1 % u16Mod), ready := st.ready ++ [pkt.2] }
  else
    st

/-- Feed a list of `(sequence, payload)` packets to a sequenced-unreliable
receiver in arrival order. -/
def SequencedUnreliableReceiver.receiveAll {α : Type} (st : SequencedUnreliableReceiver α) :
    List (Nat × α) → SequencedUnreliableReceiver α
  | [] => st
  | p :: ps => (st.receive p).receiveAll ps

/-- The spec's description of sequenced delivery, as a pure function: the
greedy strictly increasing (wraparound-aware) subsequence of the packets in
arrival order, starting from an optional last accepted sequence number. -/
def greedyAccepted {α : Type} (last : Option Nat) : List (Nat × α) → List (Nat × α)
  | [] => []
  | p :: ps =>
      if acceptSeq last p.1 then p :: greedyAccepted (some (p.1 % u16Mod)) ps
      else greedyAccepted last ps

/-- Modelled from the spec: after a delivery the ordered-reliable receiver
repeatedly drains its reorder buffer while it contains `next_expected_id`,
delivering each drained payload and advancing the expected id.  Returns the
drained payloads, the new expected id and the remaining buffer. -/
def OrderedReliableReceiver.drain {α : Type} (next : Nat) (buf : List (Nat × α)) :
    List α × Nat × List (Nat × α) :=
  match hx : buf.find? (fun x => x.1 == next) with
  | none => ([], next, buf)
  | some x =>
      let rest := buf.filter (fun y => decide (y.1 ≠ next))
      let r := OrderedReliableReceiver.drain (next + 1) rest
      (x.2 :: r.1, r.2)
termination_by buf.length
decreasing_by
  simp only [List.length_filter_lt_length_iff_exists]
  exact ⟨x, List.mem_of_find?_eq_some hx, by
    have := List.find?_some hx
    simp_all⟩

/-- Modelled from the spec: `OrderedReliableReceiver::receive`.  An id equal to
`next_expected_id` is delivered and the buffer drained; a greater id is
stashed in the reorder buffer (keyed by id); a smaller id is a duplicate and
is discarded. -/
def OrderedReliableReceiver.receive {α : Type} (st : OrderedReliableReceiver α)
    (pkt : Nat × α) : OrderedReliableReceiver α × List α :=
  if pkt.1 = st.next_expected_id then
    let r := OrderedReliableReceiver.drain (st.next_expected_id + 1) st.buffer
    ({ next_expected_id := r.2.1, buffer := r.2.2 }, pkt.2 :: r.1)
  else if st.next_expected_id < pkt.1 then
    ({ st with buffer := st.buffer.filter (fun y => decide (y.1 ≠ pkt.1)) ++ [pkt] }, [])
  else
    (st, [])

/-- Feed a list of `(message id, payload)` packets to an ordered-reliable
receiver in arrival order, collecting every payload delivered to the
application in delivery order. -/
def OrderedReliableReceiver.receiveAll {α : Type} (st : OrderedReliableReceiver α) :
    List (Nat × α) → OrderedReliableReceiver α × List α
  | [] => (st, [])
  | p :: ps =>
      let r := st.receive p
      let rr := r.1.receiveAll ps
      (rr.1, r.2 ++ rr.2)

/-- Modelled from the spec: an in-flight record is (re)sent on a tick when it
has never been sent, or when the elapsed time since `last_sent_at` exceeds
`rtt_current_estimate * rtt_resend_factor`. -/
def shouldResend {α : Type} (settings : ReliableSettings) (rtt now : ℚ)
    (r : InFlightRecord α) : Bool :=
  match r.last_sent_at with
  | none => true
  | some t => decide (rtt * settings.rtt_resend_factor < now - t)

/-- Modelled from the spec: `ReliableSender::enqueue` assigns the next
(wrapping) message id to the payload and stores a fresh in-flight record. -/
def ReliableSender.enqueue {α : Type} (st : ReliableSender α) (payload : α) :
    ReliableSender α :=
  { st with
      next_id := (st.next_id + 1) % u16Mod,
      in_flight := st.in_flight ++
        [{ message_id := st.next_id, payload := payload, last_sent_at := none,
           send_count := 0 }] }

/-- Modelled from the spec: one tick of `ReliableSender::collect_packets_to_send`
at time `now` with RTT estimate `rtt`: emits every in-flight record selected by
`shouldResend` as a `(message id, payload)` packet, stamping those records with
`last_sent_at = now` and bumping their send count. -/
def ReliableSender.collect {α : Type} (st : ReliableSender α) (now rtt : ℚ) :
    ReliableSender α × List (Nat × α) :=
  ({ st with
       in_flight := st.in_flight.map (fun r =>
         if shouldResend st.settings rtt now r then
           { r with last_sent_at := some now, send_count := r.send_count + 1 }
         else r) },
   (st.in_flight.filter (shouldResend st.settings rtt now)).map
     (fun r => (r.message_id, r.payload)))

/-- Modelled from the spec: `ReliableSender::acknowledge(message_id)` removes
the in-flight record with that id; if no record matches, nothing changes. -/
def ReliableSender.acknowledge {α : Type} (st : ReliableSender α) (id : Nat) :
    ReliableSender α :=
  { st with in_flight := st.in_flight.filter (fun r => decide (r.message_id ≠ id)) }

/-- Run a sequence of ticks, each given as `(now, rtt)`, collecting every
packet emitted across all ticks. -/
def ReliableSender.collectAll {α : Type} (st : ReliableSender α) :
    List (ℚ × ℚ) → ReliableSender α × List (Nat × α)
  | [] => (st, [])
  | t :: ts =>
      let r := st.collect t.1 t.2
      let rr := r.1.collectAll ts
      (rr.1, r.2 ++ rr.2)

/-- Helper: draining a buffer that does not contain the expected id returns
everything unchanged. -/
theorem drain_find_none {α : Type} (next : Nat) (buf : List (Nat × α))
    (h : buf.find? (fun x => x.1 == next) = none) :
    OrderedReliableReceiver.drain next buf = ([], next, buf) := by
  conv_lhs => rw [OrderedReliableReceiver.drain.eq_def]
  split
  · rfl
  · rename_i x1 hx
    rw [h] at hx
    cases hx

/-- Helper: draining a buffer containing the expected id delivers that entry's
payload, removes every entry with that id, and continues with the next id. -/
theorem drain_find_some {α : Type} (next : Nat) (buf : List (Nat × α)) (x : Nat × α)
    (h : buf.find? (fun x => x.1 == next) = some x) :
    OrderedReliableReceiver.drain next buf =
      ((x.2 :: (OrderedReliableReceiver.drain (next + 1)
          (buf.filter (fun y => decide (y.1 ≠ next)))).1,
        (OrderedReliableReceiver.drain (next + 1)
          (buf.filter (fun y => decide (y.1 ≠ next)))).2)) := by
  conv_lhs => rw [OrderedReliableReceiver.drain.eq_def]
  split
  · rename_i hx
    rw [h] at hx
    cases hx
  · rename_i x1 hx
    rw [h] at hx
    injection hx with h2
    subst h2
    rfl

/-- Claim C1: for every `ReliableSettings` value `rs`, `ChannelContainer::new`
called with settings whose mode is `OrderedReliable(rs)` produces a container
whose sender is the `ReliableSender` variant and whose receiver is the
`OrderedReliableReceiver` variant. -/
theorem claim_C1 {α : Type} (settings : ChannelSettings) (rs : ReliableSettings)
    (h : settings.mode = ChannelMode.OrderedReliable rs) :
    (ChannelContainer.new (α := α) settings).sender.variant = SenderVariant.reliable ∧
    (ChannelContainer.new (α := α) settings).receiver.variant =
      ReceiverVariant.orderedReliable := by
  obtain ⟨mode, direction⟩ := settings
  cases h
  exact ⟨rfl, rfl⟩

/-- Witness for claim C1 at a concrete settings value. -/
theorem claim_C1_witness :
    (ChannelContainer.new (α := Nat)
        { mode := ChannelMode.OrderedReliable ReliableSettings.default,
          direction := ChannelDirection.Bidirectional }).sender.variant =
      SenderVariant.reliable ∧
    (ChannelContainer.new (α := Nat)
        { mode := ChannelMode.OrderedReliable ReliableSettings.default,
          direction := ChannelDirection.Bidirectional }).receiver.variant =
      ReceiverVariant.orderedReliable :=
  claim_C1 _ ReliableSettings.default rfl

/-- Claim C2: for every `ChannelSettings` value, the container returned by
`ChannelContainer::new` has exactly the sender/receiver pairing dictated by its
`ChannelMode`, and in particular no container pairs an unreliable sender with a
reliable receiver. -/
theorem claim_C2 {α : Type} (s : ChannelSettings) :
    ((ChannelContainer.new (α := α) s).sender.variant,
      (ChannelContainer.new (α := α) s).receiver.variant) = dictatedPairing s.mode ∧
    (ReceiverVariant.isReliable (ChannelContainer.new (α := α) s).receiver.variant = true →
      SenderVariant.isReliable (ChannelContainer.new (α := α) s).sender.variant = true) := by
  obtain ⟨mode, direction⟩ := s
  cases mode <;>
    simp [ChannelContainer.new, ChannelSender.variant, ChannelReceiver.variant,
      dictatedPairing, ReceiverVariant.isReliable, SenderVariant.isReliable]

/-- Witness for claim C2 at a concrete settings value whose receiver is
reliable. -/
theorem claim_C2_witness :
    ((ChannelContainer.new (α := Nat)
        { mode := ChannelMode.UnorderedReliable ReliableSettings.default,
          direction := ChannelDirection.ClientToServer }).sender.variant,
      (ChannelContainer.new (α := Nat)
        { mode := ChannelMode.UnorderedReliable ReliableSettings.default,
          direction := ChannelDirection.ClientToServer }).receiver.variant) =
      dictatedPairing
        (ChannelMode.UnorderedReliable ReliableSettings.default) ∧
    SenderVariant.isReliable
      (ChannelContainer.new (α := Nat)
        { mode := ChannelMode.UnorderedReliable ReliableSettings.default,
          direction := ChannelDirection.ClientToServer }).sender.variant = true :=
  ⟨(claim_C2 _).1, (claim_C2 _).2 (by decide)⟩

/-- Helper: wraparound comparison only depends on the stored sequence number
modulo `u16Mod`. -/
theorem seqGreaterThan_mod (a b : Nat) : seqGreaterThan a (b % u16Mod) = seqGreaterThan a b := by
  simp [seqGreaterThan, Nat.mod_mod_of_dvd, Nat.mod_mod]

/-- Helper: the stateful sequenced-unreliable receiver computes exactly the
greedy wraparound-increasing subsequence described by the spec. -/
theorem receiveAll_ready_eq_greedy {α : Type} (pkts : List (Nat × α)) :
    ∀ st : SequencedUnreliableReceiver α,
      (st.receiveAll pkts).ready =
        st.ready ++ (greedyAccepted st.last_accepted_sequence pkts).map Prod.snd := by
  induction pkts with
  | nil => intro st; simp [SequencedUnreliableReceiver.receiveAll, greedyAccepted]
  | cons p ps ih =>
      intro st
      simp only [SequencedUnreliableReceiver.receiveAll, SequencedUnreliableReceiver.receive,
        greedyAccepted]
      by_cases h : acceptSeq st.last_accepted_sequence p.1 = true
      · simp [h, ih]
      · simp [h, ih]

/-- Helper: the accepted packets form a subsequence of the input packets in
arrival order. -/
theorem greedy_sublist {α : Type} (pkts : List (Nat × α)) :
    ∀ last, List.Sublist (greedyAccepted last pkts) pkts := by
  induction pkts with
  | nil => intro last; simp [greedyAccepted]
  | cons p ps ih =>
      intro last
      simp only [greedyAccepted]
      by_cases h : acceptSeq last p.1 = true
      · simp only [h, if_true]
        exact List.Sublist.cons₂ p (ih _)
      · rw [if_neg h]
        exact List.Sublist.cons p (ih _)

/-- Helper: the first packet accepted after sequence `l` is strictly newer
than `l`. -/
theorem greedy_first {α : Type} (pkts : List (Nat × α)) :
    ∀ (l : Nat) (q : Nat × α) (rest : List (Nat × α)),
      greedyAccepted (some l) pkts = q :: rest → seqGreaterThan q.1 l = true := by
  induction pkts with
  | nil => intro l q rest h; simp [greedyAccepted] at h
  | cons p ps ih =>
      intro l q rest h
      simp only [greedyAccepted, acceptSeq] at h
      by_cases hacc : seqGreaterThan p.1 l = true
      · rw [if_pos hacc] at h
        injection h with h1 h2
        subst h1
        exact hacc
      · rw [if_neg hacc] at h
        exact ih l q rest h

/-- Helper: consecutive accepted sequence numbers are strictly increasing in
the wraparound order. -/
theorem greedy_chain {α : Type} (pkts : List (Nat × α)) :
    ∀ last, List.Chain' (fun x y => seqGreaterThan y x = true)
      ((greedyAccepted last pkts).map Prod.fst) := by
  induction pkts with
  | nil => intro last; simp [greedyAccepted]
  | cons p ps ih =>
      intro last
      simp only [greedyAccepted]
      by_cases h : acceptSeq last p.1 = true
      · rw [if_pos h]
        simp only [List.map_cons]
        rw [List.chain'_cons']
        refine ⟨?_, ih _⟩
        intro y hy
        match hg : greedyAccepted (some (p.1 % u16Mod)) ps with
        | [] => simp [hg] at hy
        | q :: rest =>
            simp [hg] at hy
            subst hy
            have := greedy_first ps (p.1 % u16Mod) q rest hg
            rwa [seqGreaterThan_mod] at this
      · rw [if_neg h]
        exact ih _

/-- Claim C3: packets fed to a sequenced-unreliable receiver in any arrival
order deliver exactly the greedy strictly increasing (wraparound-aware)
subsequence of the input sequence numbers: the delivered payloads are those of
the greedily accepted packets, which form a subsequence of the input whose
sequence numbers strictly increase; packets not strictly newer than the last
accepted one are silently discarded.  For sequence numbers `[5, 3, 7, 6]` in
that arrival order, exactly the payloads of `5` and `7` are delivered. -/
theorem claim_C3 {α : Type} (pkts : List (Nat × α)) (a b c d : α) :
    (SequencedUnreliableReceiver.new.receiveAll pkts).ready =
        (greedyAccepted none pkts).map Prod.snd ∧
    List.Sublist (greedyAccepted none pkts) pkts ∧
    List.Chain' (fun x y => seqGreaterThan y x = true)
      ((greedyAccepted none pkts).map Prod.fst) ∧
    (SequencedUnreliableReceiver.new.receiveAll
        [(5, a), (3, b), (7, c), (6, d)]).ready = [a, c] := by
  refine ⟨?_, greedy_sublist pkts none, greedy_chain pkts none, ?_⟩
  · have h := receiveAll_ready_eq_greedy pkts (SequencedUnreliableReceiver.new (α := α))
    simpa [SequencedUnreliableReceiver.new] using h
  · have h := receiveAll_ready_eq_greedy [(5, a), (3, b), (7, c), (6, d)]
      (SequencedUnreliableReceiver.new (α := α))
    rw [h]
    norm_num [SequencedUnreliableReceiver.new, greedyAccepted, acceptSeq, seqGreaterThan, u16Mod]

/-- Claim C7: the default value of `ReliableSettings` (the inherent
`ReliableSettings::default`) has `rtt_resend_factor` equal to `1.5`. -/
theorem claim_C7 : ReliableSettings.default.rtt_resend_factor = 1.5 := by
  norm_num [ReliableSettings.default]

/-- Claim C8: the default value of `ChannelMode` is `UnorderedUnreliable`. -/
theorem claim_C8 : ChannelMode.default = ChannelMode.UnorderedUnreliable := rfl

/-- Claim C9: the container returned by `ChannelContainer::new(s)` stores a
`setting` field equal to `s`; building the container does not alter the
settings. -/
theorem claim_C9 {α : Type} (s : ChannelSettings) :
    (ChannelContainer.new (α := α) s).setting = s := by
  obtain ⟨mode, direction⟩ := s
  cases mode <;> rfl

/-- Claim C10: the default value of `ChannelSettings` has mode
`UnorderedUnreliable` and direction `Bidirectional`. -/
theorem claim_C10 :
    ChannelSettings.default.mode = ChannelMode.UnorderedUnreliable ∧
    ChannelSettings.default.direction = ChannelDirection.Bidirectional :=
  ⟨rfl, rfl⟩

/-- Helper: projecting keys commutes with filtering on a key inequality. -/
theorem map_fst_filter_ne {α : Type} (next : Nat) (l : List (Nat × α)) :
    (l.filter (fun y => decide (y.1 ≠ next))).map Prod.fst =
      (l.map Prod.fst).filter (fun a => decide (a ≠ next)) := by
  rw [List.filter_map]
  rfl

/-- Helper: `drain` delivers exactly the maximal run of consecutive ids
starting at `next` that is present in the buffer, removes those entries, and
stops at the first missing id.  `m` is the length of the delivered run. -/
theorem drain_spec {α : Type} (p : Nat → α) (next : Nat) (buf : List (Nat × α))
    (hnd : (buf.map Prod.fst).Nodup) (hpay : ∀ x ∈ buf, x.2 = p x.1) :
    ∃ m : Nat,
      (OrderedReliableReceiver.drain next buf).1 = (List.range' next m).map p ∧
      (OrderedReliableReceiver.drain next buf).2.1 = next + m ∧
      (OrderedReliableReceiver.drain next buf).2.2 =
        buf.filter (fun x => decide (x.1 ∉ List.range' next m)) ∧
      (∀ i ∈ List.range' next m, i ∈ buf.map Prod.fst) ∧
      (next + m) ∉ buf.map Prod.fst := by
  induction next, buf using OrderedReliableReceiver.drain.induct with
  | case1 next buf hfind =>
      refine ⟨0, ?_, ?_, ?_, ?_, ?_⟩
      · rw [drain_find_none next buf hfind]
        rfl
      · rw [drain_find_none next buf hfind]
        rfl
      · rw [drain_find_none next buf hfind]
        rw [List.range'_zero]
        simp
      · rw [List.range'_zero]
        simp
      · simp only [Nat.add_zero]
        intro hmem
        obtain ⟨x, hx, hfst⟩ := List.mem_map.mp hmem
        have := List.find?_eq_none.mp hfind x hx
        simp [hfst] at this
  | case2 next buf x hfind rest ih =>
      have hxbuf : x ∈ buf := List.mem_of_find?_eq_some hfind
      have hx1 : x.1 = next := by
        have := List.find?_some hfind
        simpa using this
      have hrestdef : rest = buf.filter (fun y => decide (y.1 ≠ next)) := rfl
      have hrestnd : (rest.map Prod.fst).Nodup := by
        rw [hrestdef]
        refine List.Nodup.sublist ?_ hnd
        exact List.Sublist.map Prod.fst (List.filter_sublist buf)
      have hrestpay : ∀ y ∈ rest, y.2 = p y.1 := by
        intro y hy
        rw [hrestdef] at hy
        exact hpay y (List.mem_of_mem_filter hy)
      obtain ⟨m, hout, hnext, hbuf, hsub, hnot⟩ := ih hrestnd hrestpay
      have hkeyfilter : rest.map Prod.fst =
          (buf.map Prod.fst).filter (fun a => decide (a ≠ next)) := by
        rw [hrestdef]
        exact map_fst_filter_ne next buf
      refine ⟨m + 1, ?_, ?_, ?_, ?_, ?_⟩
      · rw [drain_find_some next buf x hfind]
        rw [← hrestdef, hout]
        rw [List.range'_succ]
        simp only [List.map_cons]
        congr 1
        rw [← hx1]
        exact hpay x hxbuf
      · rw [drain_find_some next buf x hfind]
        rw [← hrestdef, hnext]
        omega
      · rw [drain_find_some next buf x hfind]
        rw [← hrestdef, hbuf, hrestdef, List.filter_filter]
        apply List.filter_congr
        intro y hy
        rw [List.range'_succ]
        simp only [List.mem_cons, not_or]
        simp [and_comm]
        rw [Bool.and_comm]
      · intro i hi
        rw [List.range'_succ] at hi
        rcases List.mem_cons.mp hi with hi | hi
        · subst hi
          exact List.mem_map.mpr ⟨x, hxbuf, hx1⟩
        · have := hsub i hi
          rw [hkeyfilter] at this
          exact List.mem_of_mem_filter this
      · intro hmem
        apply hnot
        rw [hkeyfilter]
        rw [List.mem_filter]
        have harith : next + 1 + m = next + (m + 1) := by omega
        constructor
        · rw [harith]
          exact hmem
        · simp
          omega

/-- Helper: projecting keys commutes with any filter on keys. -/
theorem map_fst_filter {α : Type} (q : Nat → Bool) (l : List (Nat × α)) :
    (l.filter (fun y => q y.1)).map Prod.fst = (l.map Prod.fst).filter q := by
  rw [List.filter_map]
  rfl

/-- Helper: unfolding one step of `receiveAll` on the delivered output. -/
theorem receiveAll_cons {α : Type} (st : OrderedReliableReceiver α) (x : Nat × α)
    (xs : List (Nat × α)) :
    (st.receiveAll (x :: xs)).2 = (st.receive x).2 ++ ((st.receive x).1.receiveAll xs).2 := rfl

/-- Helper: receiving the expected id delivers it and drains the buffer. -/
theorem receive_expected {α : Type} (v : Nat) (buf : List (Nat × α)) (pl : α) :
    OrderedReliableReceiver.receive { next_expected_id := v, buffer := buf } (v, pl) =
      ({ next_expected_id := (OrderedReliableReceiver.drain (v + 1) buf).2.1,
         buffer := (OrderedReliableReceiver.drain (v + 1) buf).2.2 },
       pl :: (OrderedReliableReceiver.drain (v + 1) buf).1) := by
  simp [OrderedReliableReceiver.receive]

/-- Helper: receiving an id ahead of the expected one stashes it in the
reorder buffer (keyed by id) and delivers nothing. -/
theorem receive_ahead {α : Type} (v j : Nat) (buf : List (Nat × α)) (pl : α) (h : v < j) :
    OrderedReliableReceiver.receive { next_expected_id := v, buffer := buf } (j, pl) =
      ({ next_expected_id := v, buffer := buf.filter (fun y => decide (y.1 ≠ j)) ++ [(j, pl)] },
       []) := by
  have hne : j ≠ v := by omega
  simp [OrderedReliableReceiver.receive, hne, h]

/-- Helper (main ordered-delivery invariant): if the ids still owed to the
application, `[v, N)`, are split between the reorder buffer's keys and the
remaining arrivals (each id occurring exactly once), every buffered entry
carries the payload of its id, and `v` itself is not buffered, then processing
the remaining arrivals delivers exactly the payloads of `v, v+1, ..., N-1` in
id order. -/
theorem receiveAll_delivers_range {α : Type} (p : Nat → α) (N : Nat) :
    ∀ (rem : List Nat) (v : Nat) (buf : List (Nat × α)),
      ((buf.map Prod.fst) ++ rem).Perm (List.range' v (N - v)) →
      (∀ x ∈ buf, x.2 = p x.1) →
      v ∉ buf.map Prod.fst →
      (OrderedReliableReceiver.receiveAll { next_expected_id := v, buffer := buf }
          (rem.map (fun i => (i, p i)))).2 = (List.range' v (N - v)).map p := by
  intro rem
  induction rem with
  | nil =>
      intro v buf hperm hpay hv
      have hzero : N - v = 0 := by
        by_contra hnz
        have hvmem : v ∈ List.range' v (N - v) := by
          rw [List.mem_range'_1]
          omega
        have hvk := hperm.symm.subset hvmem
        simp only [List.append_nil] at hvk
        exact hv hvk
      rw [hzero]
      simp [OrderedReliableReceiver.receiveAll, List.range'_zero]
  | cons j rest ih =>
      intro v buf hperm hpay hv
      have hjmem : j ∈ List.range' v (N - v) := hperm.subset (by simp)
      rw [List.mem_range'_1] at hjmem
      have hnd : ((buf.map Prod.fst) ++ j :: rest).Nodup :=
        hperm.nodup_iff.mpr (List.nodup_range' _ _)
      rw [List.nodup_append] at hnd
      obtain ⟨hndbuf, hndjr, hdisj⟩ := hnd
      have hjbuf : j ∉ buf.map Prod.fst := fun hmem => hdisj hmem (by simp)
      rcases eq_or_lt_of_le hjmem.1 with hjv | hlt
      · -- j = v : deliver and drain
        subst hjv
        obtain ⟨m, hout, hnext, hbuf, hsub, hnot⟩ := drain_spec p (v + 1) buf hndbuf hpay
        have hNv : 0 < N - v := by omega
        have hsplitN : N - v = (N - v - 1) + 1 := by omega
        rw [hsplitN, List.range'_succ] at hperm ⊢
        have hA : (buf.map Prod.fst ++ rest).Perm (List.range' (v + 1) (N - v - 1)) :=
          (List.perm_middle.symm.trans hperm).cons_inv
        have hkeysr : (OrderedReliableReceiver.drain (v + 1) buf).2.2.map Prod.fst =
            (buf.map Prod.fst).filter (fun a => decide (a ∉ List.range' (v + 1) m)) := by
          rw [hbuf, map_fst_filter (fun a => decide (a ∉ List.range' (v + 1) m)) buf]
        have hin : ((buf.map Prod.fst).filter
            (fun a => decide (a ∈ List.range' (v + 1) m))).Perm (List.range' (v + 1) m) := by
          rw [List.perm_ext_iff_of_nodup
            (List.Nodup.filter (fun a => decide (a ∈ List.range' (v + 1) m)) hndbuf)
            (List.nodup_range' _ _)]
          intro a
          simp only [List.mem_filter, decide_eq_true_eq]
          constructor
          · exact fun h => h.2
          · exact fun h => ⟨hsub a h, h⟩
        have hsplitkeys : (buf.map Prod.fst).Perm
            (List.range' (v + 1) m ++
              (OrderedReliableReceiver.drain (v + 1) buf).2.2.map Prod.fst) := by
          have hfp := List.filter_append_perm
            (fun a => decide (a ∈ List.range' (v + 1) m)) (buf.map Prod.fst)
          refine hfp.symm.trans ?_
          refine List.Perm.append hin ?_
          rw [hkeysr]
          apply List.Perm.of_eq
          apply List.filter_congr
          intro a ha
          simp only [decide_not]
        have hmle : m ≤ N - v - 1 := by
          have hsubr : List.range' (v + 1) m ⊆ List.range' (v + 1) (N - v - 1) := by
            intro a ha
            exact hA.subset (List.mem_append_left _ (hsub a ha))
          have := (List.subperm_of_subset (List.nodup_range' _ _) hsubr).length_le
          simpa using this
        have hpermr : ((OrderedReliableReceiver.drain (v + 1) buf).2.2.map Prod.fst ++
            rest).Perm (List.range' (v + 1 + m) (N - v - 1 - m)) := by
          rw [← List.perm_append_left_iff (List.range' (v + 1) m)]
          have h1 : (List.range' (v + 1) m ++
              ((OrderedReliableReceiver.drain (v + 1) buf).2.2.map Prod.fst ++ rest)).Perm
              (buf.map Prod.fst ++ rest) := by
            rw [← List.append_assoc]
            exact List.Perm.append_right rest hsplitkeys.symm
          refine h1.trans (hA.trans ?_)
          apply List.Perm.of_eq
          have harr : N - v - 1 = (N - v - 1 - m) + m := by omega
          conv_lhs => rw [harr, ← List.range'_append_1]
        have hpayr : ∀ x ∈ (OrderedReliableReceiver.drain (v + 1) buf).2.2, x.2 = p x.1 := by
          intro x hx
          rw [hbuf] at hx
          exact hpay x (List.mem_of_mem_filter hx)
        have hvr : (v + 1 + m) ∉
            (OrderedReliableReceiver.drain (v + 1) buf).2.2.map Prod.fst := by
          intro hmem
          rw [hkeysr] at hmem
          exact hnot (List.mem_of_mem_filter hmem)
        have hNvr : N - (v + 1 + m) = N - v - 1 - m := by omega
        have hih := ih (v + 1 + m) (OrderedReliableReceiver.drain (v + 1) buf).2.2
          (by rw [hNvr]; exact hpermr) hpayr hvr
        rw [List.map_cons, receiveAll_cons, receive_expected, hnext, hih, hout, hNvr]
        simp only [List.cons_append, List.map_cons]
        congr 1
        rw [← List.map_append]
        congr 1
        have harr : N - v - 1 = (N - v - 1 - m) + m := by omega
        conv_rhs => rw [harr, ← List.range'_append_1]
      · -- v < j : stash in the reorder buffer
        have hfil : buf.filter (fun y => decide (y.1 ≠ j)) = buf := by
          apply List.filter_eq_self.mpr
          intro y hy
          simp only [decide_eq_true_eq]
          intro heq
          exact hjbuf (List.mem_map.mpr ⟨y, hy, heq⟩)
        rw [List.map_cons, receiveAll_cons, receive_ahead v j buf (p j) hlt, hfil]
        rw [List.nil_append]
        apply ih
        · rw [List.map_append]
          simp only [List.map_cons, List.map_nil]
          rw [List.append_assoc, List.singleton_append]
          exact hperm
        · intro x hx
          rcases List.mem_append.mp hx with hx | hx
          · exact hpay x hx
          · simp only [List.mem_singleton] at hx
            rw [hx]
        · rw [List.map_append]
          simp only [List.map_cons, List.map_nil]
          rw [List.mem_append]
          push_neg
          exact ⟨hv, by simp; omega⟩

/-- Claim C4: for messages with consecutive ids fed to an ordered-reliable
receiver in any arrival order, the delivered payloads are exactly the payloads
in increasing id order: an arriving id equal to `next_expected_id` is delivered
and the reorder buffer drained, a greater id is buffered, a smaller id is
discarded as a duplicate.  Messages with ids `1,2,3` received in order `3,1,2`
are delivered in order `1,2,3`. -/
theorem claim_C4 {α : Type} (p : Nat → α) (n k : Nat) (ids : List Nat)
    (h : ids.Perm (List.range' n k)) (a b c : α) :
    (OrderedReliableReceiver.receiveAll { next_expected_id := n, buffer := [] }
        (ids.map (fun i => (i, p i)))).2 = (List.range' n k).map p ∧
    (OrderedReliableReceiver.receiveAll { next_expected_id := 1, buffer := [] }
        [(3, c), (1, a), (2, b)]).2 = [a, b, c] := by
  constructor
  · have hmain := receiveAll_delivers_range p (n + k) ids n []
    have hnk : n + k - n = k := by omega
    rw [hnk] at hmain
    apply hmain
    · simpa using h
    · simp
    · simp
  · simp [OrderedReliableReceiver.receiveAll, OrderedReliableReceiver.receive,
      drain_find_none, drain_find_some, List.find?]

/-- Witness for claim C4: ids `[3,1,2]`, a permutation of `1..3`, delivered in
id order. -/
theorem claim_C4_witness :
    (OrderedReliableReceiver.receiveAll { next_expected_id := 1, buffer := [] }
        ([3, 1, 2].map (fun i => (i, i)))).2 = (List.range' 1 3).map (fun i => i) ∧
    (OrderedReliableReceiver.receiveAll { next_expected_id := 1, buffer := [] }
        [(3, 30), (1, 10), (2, 20)]).2 = [10, 20, 30] :=
  claim_C4 (fun i => i) 1 3 [3, 1, 2] (by decide) 10 20 30

/-- Helper: a tick never changes the set of in-flight message ids. -/
theorem collect_in_flight_ids {α : Type} (st : ReliableSender α) (now rtt : ℚ) :
    (st.collect now rtt).1.in_flight.map (fun r => r.message_id) =
      st.in_flight.map (fun r => r.message_id) := by
  simp only [ReliableSender.collect, List.map_map]
  have h : ((fun r : InFlightRecord α => r.message_id) ∘ fun r =>
      if shouldResend st.settings rtt now r then
        { r with last_sent_at := some now, send_count := r.send_count + 1 }
      else r) = fun r : InFlightRecord α => r.message_id := by
    funext r
    by_cases hc : shouldResend st.settings rtt now r <;> simp [hc]
  rw [h]

/-- Helper: every packet emitted by a tick carries the id of some in-flight
record. -/
theorem collect_emit_ids {α : Type} (st : ReliableSender α) (now rtt : ℚ)
    (idp : Nat × α) (h : idp ∈ (st.collect now rtt).2) :
    idp.1 ∈ st.in_flight.map (fun r => r.message_id) := by
  simp only [ReliableSender.collect, List.mem_map] at h
  obtain ⟨r, hr, heq⟩ := h
  rw [List.mem_filter] at hr
  exact List.mem_map.mpr ⟨r, hr.1, by rw [← heq]⟩

/-- Helper: an id that is not in flight is never emitted by any sequence of
later ticks. -/
theorem collectAll_no_emit {α : Type} (id : Nat) :
    ∀ (ticks : List (ℚ × ℚ)) (st : ReliableSender α),
      id ∉ st.in_flight.map (fun r => r.message_id) →
      ∀ pl : α, (id, pl) ∉ (st.collectAll ticks).2 := by
  intro ticks
  induction ticks with
  | nil => intro st h pl; simp [ReliableSender.collectAll]
  | cons t ts ih =>
      intro st h pl
      simp only [ReliableSender.collectAll, List.mem_append]
      push_neg
      constructor
      · intro hmem
        exact h (collect_emit_ids st t.1 t.2 (id, pl) hmem)
      · apply ih
        rw [collect_in_flight_ids]
        exact h

/-- Claim C5: `acknowledge(message_id)` removes the in-flight record with that
id (afterwards no record with the id remains and no later tick re-emits it,
whatever the tick times and RTT estimates); acknowledging an id that is
unknown, or acknowledging the same id again, leaves the sender state unchanged
and is not an error. -/
theorem claim_C5 {α : Type} (st : ReliableSender α) (id : Nat) :
    ((st.acknowledge id).in_flight =
      st.in_flight.filter (fun r => decide (r.message_id ≠ id))) ∧
    (∀ r ∈ (st.acknowledge id).in_flight, r.message_id ≠ id) ∧
    (id ∉ st.in_flight.map (fun r => r.message_id) → st.acknowledge id = st) ∧
    ((st.acknowledge id).acknowledge id = st.acknowledge id) ∧
    (∀ (ticks : List (ℚ × ℚ)) (pl : α),
      (id, pl) ∉ ((st.acknowledge id).collectAll ticks).2) := by
  refine ⟨rfl, ?_, ?_, ?_, ?_⟩
  · intro r hr
    rw [ReliableSender.acknowledge] at hr
    simp only [List.mem_filter, decide_eq_true_eq] at hr
    exact hr.2
  · intro h
    obtain ⟨settings, next_id, in_flight⟩ := st
    simp only [ReliableSender.acknowledge]
    congr 1
    apply List.filter_eq_self.mpr
    intro r hr
    simp only [decide_eq_true_eq]
    intro heq
    exact h (List.mem_map.mpr ⟨r, hr, heq⟩)
  · simp [ReliableSender.acknowledge, List.filter_filter]
  · intro ticks pl
    apply collectAll_no_emit
    intro hmem
    simp only [ReliableSender.acknowledge, List.mem_map] at hmem
    obtain ⟨r, hr, heq⟩ := hmem
    rw [List.mem_filter] at hr
    simp only [decide_eq_true_eq] at hr
    exact hr.2 heq

/-- Witness for claim C5: on a sender with in-flight ids `0` and `1`, acking
the unknown id `5` is a no-op, and after acking id `0` a later tick does not
re-emit it. -/
theorem claim_C5_witness :
    (ReliableSender.acknowledge
        { settings := ReliableSettings.default, next_id := 2,
          in_flight :=
            [{ message_id := 0, payload := 10, last_sent_at := none, send_count := 0 },
             { message_id := 1, payload := 11, last_sent_at := some 0, send_count := 1 }] }
        5 =
      { settings := ReliableSettings.default, next_id := 2,
        in_flight :=
          [{ message_id := 0, payload := 10, last_sent_at := none, send_count := 0 },
           { message_id := 1, payload := 11, last_sent_at := some 0, send_count := 1 }] }) ∧
    ((0 : Nat), (10 : Nat)) ∉
      ((ReliableSender.acknowledge
          { settings := ReliableSettings.default, next_id := 2,
            in_flight :=
              [{ message_id := 0, payload := 10, last_sent_at := none, send_count := 0 },
               { message_id := 1, payload := 11, last_sent_at := some 0, send_count := 1 }] }
          0).collectAll [(1, 100)]).2 :=
  ⟨(claim_C5 _ 5).2.2.1 (by decide), (claim_C5 _ 0).2.2.2.2 [(1, 100)] 10⟩

/-- Claim C6: a message enqueued on a reliable sender and never acknowledged
is retransmitted.  With `rtt_resend_factor = 1.5` and an RTT estimate of
`100` ms, the first tick emits the message as `(id 0, payload)`, and a second
tick re-emits the identical id and payload exactly when more than `150` ms
have elapsed since the first transmission — so a second transmission occurs no
earlier than `150` ms after the first.  In general a tick re-emits every
in-flight record whose elapsed time since `last_sent_at` exceeds
`rtt * rtt_resend_factor`. -/
theorem claim_C6 {α : Type} (payload : α) (t1 t2 : ℚ) :
    (((ReliableSender.new (α := α) { rtt_resend_factor := 3 / 2 }).enqueue
        payload).collect t1 100).2 = [(0, payload)] ∧
    (150 < t2 - t1 →
      ((((ReliableSender.new (α := α) { rtt_resend_factor := 3 / 2 }).enqueue
          payload).collect t1 100).1.collect t2 100).2 = [(0, payload)]) ∧
    (t2 - t1 ≤ 150 →
      ((((ReliableSender.new (α := α) { rtt_resend_factor := 3 / 2 }).enqueue
          payload).collect t1 100).1.collect t2 100).2 = []) ∧
    (∀ (st : ReliableSender α) (now rtt t : ℚ) (r : InFlightRecord α),
      r ∈ st.in_flight → r.last_sent_at = some t →
      rtt * st.settings.rtt_resend_factor < now - t →
      (r.message_id, r.payload) ∈ (st.collect now rtt).2) := by
  refine ⟨?_, ?_, ?_, ?_⟩
  · simp [ReliableSender.new, ReliableSender.enqueue, ReliableSender.collect, shouldResend]
  · intro h
    have hd : ((100 : ℚ) * (3 / 2) < t2 - t1) := by linarith
    simp [ReliableSender.new, ReliableSender.enqueue, ReliableSender.collect, shouldResend, hd]
  · intro h
    have hd : ¬ ((100 : ℚ) * (3 / 2) < t2 - t1) := by linarith
    simp [ReliableSender.new, ReliableSender.enqueue, ReliableSender.collect, shouldResend, hd]
  · intro st now rtt t r hr hlast hlt
    simp only [ReliableSender.collect, List.mem_map]
    refine ⟨r, ?_, rfl⟩
    rw [List.mem_filter]
    refine ⟨hr, ?_⟩
    rw [shouldResend, hlast]
    simpa using hlt

/-- Witness for claim C6: first transmission at time `0`, second tick at time
`151` (more than `150` ms later) re-emits the identical id and payload. -/
theorem claim_C6_witness :
    (((ReliableSender.new (α := Nat) { rtt_resend_factor := 3 / 2 }).enqueue
        7).collect 0 100).2 = [(0, 7)] ∧
    ((((ReliableSender.new (α := Nat) { rtt_resend_factor := 3 / 2 }).enqueue
        7).collect 0 100).1.collect 151 100).2 = [(0, 7)] :=
  ⟨(claim_C6 7 0 151).1, (claim_C6 7 0 151).2.1 (by norm_num)⟩

end Lightyear
